import Mathlib

/-!
Shallow embedding of the oai-team-auto-provisioner repository (Python) in
Lean 4, together with theorems settling the frozen claims about it.

Conventions used throughout:
* Python strings are modelled as Lean `String` / `List Char`.
* Randomness (`random.randint`, `random.uniform`, `random.choice`) is
  modelled by passing the sampled values in as explicit parameters; the
  range guarantees of the sampler become hypotheses.
* Side effects (element input, `time.sleep`, HTTP polls) are modelled as
  explicit event traces; the outside world (page URLs, HTTP responses,
  launch outcomes) is modelled as explicit oracle streams.
* Exceptions that a function catches are modelled with `Option` / sum
  constructors on the oracle side.
-/

/-- Boolean test that `needle` occurs as a contiguous sublist of the second
argument. -/
def hasSubList (needle : List Char) : List Char → Bool
  | [] => needle.isEmpty
  | c :: rest => needle.isPrefixOf (c :: rest) || hasSubList needle rest

/-- Boolean substring test, modelling the Python expression
`needle in haystack` on strings. -/
def substrB (needle hay : String) : Bool :=
  hasSubList needle.toList hay.toList

/-! ## config.py: get_random_birthday (claim C10) -/

/-- Model of Python `str.zfill(w)` on digit strings: left-pad with
the character 0 up to width `w`. -/
def zfill (w : Nat) (s : String) : String :=
  String.mk (List.replicate (w - s.length) '0') ++ s

/-- The dict returned by `get_random_birthday` in config.py. -/
structure Birthday where
  year : String
  month : String
  day : String
deriving DecidableEq, Repr

/-- Embedding of `get_random_birthday` (config.py lines 90-95).  The three
values sampled by `random.randint(2000, 2005)`, `random.randint(1, 12)` and
`random.randint(1, 28)` are passed in as `y`, `m`, `d`. -/
def get_random_birthday (y m d : Nat) : Birthday :=
  { year := Nat.repr y
    month := zfill 2 (Nat.repr m)
    day := zfill 2 (Nat.repr d) }

/-- Numeric value of a digit string (most significant digit first). -/
def digitsToNat (cs : List Char) : Nat :=
  cs.foldl (fun acc c => acc * 10 + (c.toNat - '0'.toNat)) 0

/-- Numeric value of a decimal string. -/
def strVal (s : String) : Nat :=
  digitsToNat s.toList

/-- Gregorian-calendar month length, used as the specification-side notion
of a valid calendar date for claim C10. -/
def isLeapYear (y : Nat) : Bool :=
  (y % 4 == 0 && y % 100 != 0) || y % 400 == 0

/-- Number of days of month `m` of year `y` in the Gregorian calendar. -/
def monthLength (y m : Nat) : Nat :=
  if m = 2 then (if isLeapYear y then 29 else 28)
  else if m = 4 ∨ m = 6 ∨ m = 9 ∨ m = 11 then 30
  else 31

/-! ## config.py: TEAMS and the team lookups (claim C9) -/

/-- JSON values, for the records loaded from team.json. -/
inductive Jv where
  | jnull
  | jbool (b : Bool)
  | jnum (n : Int)
  | jstr (s : String)
  | jarr (elems : List Jv)
  | jobj (fields : List (String × Jv))

/-- Lookup in a JSON object (a Python dict), returning the first binding of
the key, as `dict.get(key)` with no default returns the value or None. -/
def dictGet (fields : List (String × Jv)) (k : String) : Option Jv :=
  (fields.find? (fun p => p.1 == k)).map (fun p => p.2)

/-- Fields of a JSON value when it is an object, else the empty object.
Python code below only ever calls `.get` on values that are dicts. -/
def asObj : Jv → List (String × Jv)
  | Jv.jobj fields => fields
  | _ => []

/-- String content of a JSON value when it is a string, else the given
default; models Python code that treats the value as a str. -/
def asStr (d : String) : Option Jv → String
  | some (Jv.jstr s) => s
  | _ => d

/-- Python equality test between an `Option Jv` (result of a `.get` chain,
None when absent) and a str: None and non-str values never equal a str. -/
def pyEqStr : Option Jv → String → Bool
  | some (Jv.jstr s), e => s == e
  | _, _ => false

/-- Prefix of a string before the first @, modelling
Python `s.split("@")[0]`. -/
def beforeAt (s : String) : String :=
  String.mk (s.toList.takeWhile (fun c => c ≠ '@'))

/-- One entry of `TEAMS` as built in config.py lines 48-56 from the raw
team.json record `t` at index `i` (Python index, so the default name is
Team followed by `i+1`). -/
def mkTeamEntry (i : Nat) (t : List (String × Jv)) : List (String × Jv) :=
  [ ("name",
      Jv.jstr (beforeAt (asStr ("Team" ++ Nat.repr (i + 1))
        (dictGet (asObj ((dictGet t "user").getD (Jv.jobj []))) "email")))),
    ("account_id",
      (dictGet (asObj ((dictGet t "account").getD (Jv.jobj []))) "id").getD
        (Jv.jstr "")),
    ("org_id",
      (dictGet (asObj ((dictGet t "account").getD (Jv.jobj [])))
        "organizationId").getD (Jv.jstr "")),
    ("auth_token", (dictGet t "accessToken").getD (Jv.jstr "")),
    ("raw", Jv.jobj t) ]

/-- The `TEAMS` list built by the `for i, t in enumerate(_raw_teams)` loop,
starting from index `i`. -/
def mkTeamsFrom (i : Nat) : List (List (String × Jv)) → List (List (String × Jv))
  | [] => []
  | t :: ts => mkTeamEntry i t :: mkTeamsFrom (i + 1) ts

/-- The `TEAMS` list of config.py as a function of the raw team.json
records. -/
def teamsOf (raw : List (List (String × Jv))) : List (List (String × Jv)) :=
  mkTeamsFrom 0 raw

/-- Embedding of `get_team_by_email` (config.py lines 166-167): first team
whose `t.get("user", {}).get("email")` equals the email, else the empty
dict. -/
def get_team_by_email (teams : List (List (String × Jv))) (email : String) :
    List (String × Jv) :=
  (teams.find? (fun t =>
    pyEqStr (dictGet (asObj ((dictGet t "user").getD (Jv.jobj []))) "email")
      email)).getD []

/-- Embedding of `get_team_by_org` (config.py lines 170-171): first team
whose `t.get("account", {}).get("organizationId")` equals the org id, else
the empty dict. -/
def get_team_by_org (teams : List (List (String × Jv))) (orgId : String) :
    List (String × Jv) :=
  (teams.find? (fun t =>
    pyEqStr
      (dictGet (asObj ((dictGet t "account").getD (Jv.jobj []))) "organizationId")
      orgId)).getD []

/-! ## email_service.py: verification-code extraction (claims C3, C5) -/

/-- Python regex whitespace class for ASCII text: the characters matched by
the pattern backslash-s. -/
def isWsp (c : Char) : Bool :=
  c == ' ' || c == '\t' || c == '\n' || c == '\x0b' || c == '\x0c' || c == '\r'

/-- Python regex word character for ASCII text: the characters matched by
the pattern backslash-w (ASCII letters, digits and underscore; the source
texts the repository feeds these patterns are treated at this level). -/
def isWordCh (c : Char) : Bool :=
  c.isAlphanum || c == '_'

/-- Case-insensitive prefix test on character lists (ASCII case folding,
modelling re.IGNORECASE on the ASCII keywords that occur here). -/
def ciPrefixB : List Char → List Char → Bool
  | [], _ => true
  | _ :: _, [] => false
  | a :: as, b :: bs => (a.toLower == b.toLower) && ciPrefixB as bs

/-- Capture of a six-digit group at the head of `cs`, modelling a match of
the group of six digits at the current position. -/
def take6Digits (cs : List Char) : Option (List Char) :=
  let g := cs.take 6
  if g.length == 6 && g.all Char.isDigit then some g else none

/-- Match, at the current position, a fixed keyword (case-insensitively when
`ci` is true), then any run of whitespace, then a six-digit group; this is
the shape of the two keyword patterns of email_service.py.  Greedy
whitespace consumption is exact here because no whitespace character is a
digit. -/
def matchKwd (kwd : List Char) (ci : Bool) (cs : List Char) : Option (List Char) :=
  if (if ci then ciPrefixB kwd cs else kwd.isPrefixOf cs) then
    take6Digits ((cs.drop kwd.length).dropWhile isWsp)
  else none

/-- Leftmost-match search: try the position matcher at every position of
the text, leftmost first, as re.search does. -/
def reSearch (m : List Char → Option (List Char)) : List Char → Option (List Char)
  | [] => m []
  | c :: rest =>
    match m (c :: rest) with
    | some g => some g
    | none => reSearch m rest

/-- Match a six-digit group delimited by word boundaries at the current
position (`prev` is the character immediately before the position, none at
the start of the text); this models the third pattern of
`_extract_verification_code`, a six-digit group between two word
boundaries. -/
def bounded6At (prev : Option Char) (cs : List Char) : Option (List Char) :=
  match take6Digits cs with
  | none => none
  | some g =>
    let okBefore := match prev with
      | none => true
      | some p => !(isWordCh p)
    let okAfter := match cs.drop 6 with
      | [] => true
      | a :: _ => !(isWordCh a)
    if okBefore && okAfter then some g else none

/-- Leftmost search for a word-bounded six-digit group, carrying the
previous character for the left word boundary. -/
def searchBounded6 (prev : Option Char) : List Char → Option (List Char)
  | [] => none
  | c :: rest =>
    match bounded6At prev (c :: rest) with
    | some g => some g
    | none => searchBounded6 (some c) rest

/-- The keyword of the first pattern of `_extract_verification_code`
(email_service.py line 117). -/
def kwDaima : List Char := "代码为".toList

/-- The keyword of the second pattern of `_extract_verification_code`
(email_service.py line 118). -/
def kwCodeIs : List Char := "code is".toList

/-- Embedding of `_extract_verification_code` (email_service.py lines
110-127): empty text yields the empty string, otherwise the three patterns
are tried in order (all three with re.IGNORECASE) and the first match's
six-digit group is returned; the empty string is returned when none
matches. -/
def extract_verification_code (text : List Char) : List Char :=
  if text.isEmpty then []
  else
    match reSearch (matchKwd kwDaima true) text with
    | some g => g
    | none =>
      match reSearch (matchKwd kwCodeIs true) text with
      | some g => g
      | none =>
        match searchBounded6 none text with
        | some g => g
        | none => []

/-- Subject matching of the classic (non-GPTMail) branch of
`get_verification_code` (email_service.py lines 270-292): first the
case-sensitive Chinese keyword pattern, then the case-insensitive English
keyword pattern, then a bare six-digit group anywhere (no word
boundaries). -/
def subjectCode (subject : List Char) : Option (List Char) :=
  match reSearch (matchKwd kwDaima false) subject with
  | some g => some g
  | none =>
    match reSearch (matchKwd kwCodeIs true) subject with
    | some g => some g
    | none => reSearch take6Digits subject

/-- One email of the classic mail API response (subject and createTime are
the only fields the code reads). -/
structure EmailMsg where
  subject : String
  createTime : String

/-- One poll of the classic mail API: either an exception (network or JSON
failure, caught by the code) or a JSON body with a status code and a list
of emails, newest first. -/
inductive MailResp where
  | exn
  | resp (code : Int) (emails : List EmailMsg)

/-- Outcome of one classic polling attempt (email_service.py lines
261-292): the six-digit code and the mail creation time when the status is
200, the email list is non-empty and the newest email's subject matches one
of the three patterns. -/
def classicAttempt (r : MailResp) : Option (String × String) :=
  match r with
  | MailResp.exn => none
  | MailResp.resp code emails =>
    if code == 200 then
      match emails with
      | [] => none
      | latest :: _ =>
        match subjectCode latest.subject.toList with
        | some g => some (String.mk g, latest.createTime)
        | none => none
    else none

/-- Observable events of the polling loop: one `poll i` per attempt and one
`sleep` per `time.sleep(interval)` call. -/
inductive PollEv where
  | poll (i : Nat)
  | sleep (secs : Nat)
deriving DecidableEq, Repr

/-- The result triple (code, error, email_time) of
`get_verification_code`. -/
structure GVCResult where
  code : Option String
  err : Option String
  emailTime : Option String
deriving DecidableEq, Repr

/-- The failure triple returned when every attempt fails
(email_service.py line 313). -/
def gvcFailure : GVCResult :=
  { code := none, err := some "未能获取验证码", emailTime := none }

/-- The retry loop shared by both branches of `get_verification_code`
(email_service.py lines 259-313 and 137-175): run attempts `i`,
`i + 1`, ... while fuel lasts, return the success triple at the first
attempt that yields a code, sleep `interval` seconds after every failed
attempt except the last, and return the failure triple when the fuel is
exhausted.  `fuel` is `max_retries - i`; the source's test
`i < max_retries - 1` deciding whether to sleep is exactly the test that
fuel remains after this attempt. -/
def pollLoopF (attempt : Nat → Option (String × String)) (interval : Nat) :
    Nat → Nat → GVCResult × List PollEv
  | 0, _ => (gvcFailure, [])
  | fuel + 1, i =>
    match attempt i with
    | some (c, t) => ({ code := some c, err := none, emailTime := some t }, [PollEv.poll i])
    | none =>
      if fuel = 0 then (gvcFailure, [PollEv.poll i])
      else
        let r := pollLoopF attempt interval fuel (i + 1)
        (r.1, PollEv.poll i :: PollEv.sleep interval :: r.2)

/-- One email of a GPTMail poll (email_service.py lines 141-155 read
timestamp, subject, content, html_content and created_at). -/
structure GMail where
  timestamp : Option Int
  subject : String
  content : String
  htmlContent : String
  createdAt : Option String

/-- Email time string of a GPTMail message:
`mail.get("created_at") or (str(int(ts)) if numeric else "")`, where a
missing or empty created_at falls back to the timestamp. -/
def gmailTime (m : GMail) : String :=
  let fallback := match m.timestamp with
    | some ts => toString ts
    | none => ""
  match m.createdAt with
  | some s => if s.isEmpty then fallback else s
  | none => fallback

/-- The text `_extract_verification_code` is applied to in the GPTMail
branch: subject, content and html joined with newlines. -/
def gmailText (m : GMail) : List Char :=
  m.subject.toList ++ '\n' :: m.content.toList ++ '\n' :: m.htmlContent.toList

/-- Scan of the sorted GPTMail messages (email_service.py lines 143-160):
skip messages older than a minute before the poll started, return the first
message whose joined text yields a code. -/
def gmailScan (startTs : Int) : List GMail → Option (String × String)
  | [] => none
  | m :: rest =>
    if (match m.timestamp with
        | some ts => decide (ts < startTs - 60)
        | none => false) then
      gmailScan startTs rest
    else
      match extract_verification_code (gmailText m) with
      | [] => gmailScan startTs rest
      | g => some (String.mk g, gmailTime m)

/-- Outcome of one GPTMail polling attempt: the fetched email list (none
models a caught exception) is sorted newest first by timestamp (stable,
missing timestamps counting as 0) and scanned. -/
def gptAttempt (startTs : Int) (fetch : Nat → Option (List GMail)) (i : Nat) :
    Option (String × String) :=
  match fetch i with
  | none => none
  | some emails =>
    gmailScan startTs
      (emails.mergeSort (fun a b => decide (b.timestamp.getD 0 ≤ a.timestamp.getD 0)))

/-- Default of `VERIFICATION_CODE_MAX_RETRIES` (config.py line 108): the
config value when config.toml provides one, else 20. -/
def VERIFICATION_CODE_MAX_RETRIES (cfg : Option Nat) : Nat :=
  cfg.getD 20

/-- Embedding of `get_verification_code` (email_service.py lines 230-313):
the GPTMail branch when EMAIL_USE_GPTMAIL is set, else the classic mail API
polling loop. -/
def get_verification_code (maxRetries interval : Nat) (useGptmail : Bool)
    (responses : Nat → MailResp) (gptFetch : Nat → Option (List GMail))
    (startTs : Int) : GVCResult × List PollEv :=
  if useGptmail then
    pollLoopF (gptAttempt startTs gptFetch) interval maxRetries 0
  else
    pollLoopF (fun i => classicAttempt (responses i)) interval maxRetries 0

/-- Number of polling attempts recorded in an event trace. -/
def pollCount (evs : List PollEv) : Nat :=
  (evs.filter (fun e => match e with | PollEv.poll _ => true | _ => false)).length

/-- The trace of `n` polling attempts starting at index `i` with a sleep of
`interval` seconds between consecutive attempts and none after the last. -/
def alternatingPolls (interval : Nat) : Nat → Nat → List PollEv
  | 0, _ => []
  | 1, i => [PollEv.poll i]
  | n + 2, i => PollEv.poll i :: PollEv.sleep interval :: alternatingPolls interval (n + 1) (i + 1)

/-! ## browser_automation.py: init_browser (claim C6) -/

/-- Default of `BROWSER_MAX_RETRIES` (browser_automation.py line 36). -/
def BROWSER_MAX_RETRIES : Nat := 3

/-- The retry loop of `init_browser` (browser_automation.py lines 183-254):
attempt `i`, `i + 1`, ... while fuel lasts; a successful attempt returns
its page at once, a failing attempt records its error as `last` and
retries; when the loop ends the recorded error is raised (`last` is still
none only when no attempt ran at all, in which case Python `raise None` is
itself an error).  The second component counts the attempts made. -/
def initLoop {Page Err : Type} (attempts : Nat → Except Err Page) (last : Option Err) :
    Nat → Nat → Except (Option Err) Page × Nat
  | 0, _ => (Except.error last, 0)
  | fuel + 1, i =>
    match attempts i with
    | Except.ok p => (Except.ok p, 1)
    | Except.error e =>
      let r := initLoop attempts (some e) fuel (i + 1)
      (r.1, r.2 + 1)

/-- Embedding of `init_browser` (browser_automation.py lines 183-254):
each launch attempt either produces a page or raises; the result is the
first page or the re-raised last error, paired with the number of attempts
made. -/
def init_browser {Page Err : Type} (maxRetries : Nat)
    (attempts : Nat → Except Err Page) : Except (Option Err) Page × Nat :=
  initLoop attempts none maxRetries 0

/-! ## browser_automation.py: wait_for_url_change (claim C7) -/

/-- Match condition of `wait_for_url_change` on one polled URL: the URL
differs from the old one and, when a containment string is given, contains
it as a substring. -/
def urlMatches (oldUrl : String) (contains : Option String) (u : String) : Bool :=
  u != oldUrl &&
    (match contains with
     | none => true
     | some c => substrB c u)

/-- Embedding of `wait_for_url_change` (browser_automation.py lines
487-511).  `polls` is the sequence of `page.url` reads the loop performs
before the timeout elapses; none models a read that raised (the code
swallows the exception and keeps polling).  The function returns true at
the first read that matches and false when the polls are exhausted. -/
def wait_for_url_change (polls : List (Option String)) (oldUrl : String)
    (contains : Option String) : Bool :=
  match polls with
  | [] => false
  | p :: rest =>
    match p with
    | some u =>
      if urlMatches oldUrl contains u then true
      else wait_for_url_change rest oldUrl contains
    | none => wait_for_url_change rest oldUrl contains

/-! ## crs_service.py: extract_code_from_url (claim C8) -/

/-- Split at the first occurrence of `sep`: the part before it, and the
part after it when it occurs (none when it does not), modelling Python
`s.split(sep, 1)`. -/
def splitFirst (sep : Char) : List Char → List Char × Option (List Char)
  | [] => ([], none)
  | c :: rest =>
    if c = sep then ([], some rest)
    else
      let r := splitFirst sep rest
      (c :: r.1, r.2)

/-- Split on every occurrence of `sep`, modelling Python `s.split(sep)`
(the empty string yields one empty field). -/
def splitAll (sep : Char) : List Char → List (List Char)
  | [] => [[]]
  | c :: rest =>
    if c = sep then [] :: splitAll sep rest
    else
      match splitAll sep rest with
      | [] => [[c]]
      | f :: fs => (c :: f) :: fs

/-- The query component of a URL as `urlsplit` computes it: the part of the
URL after the first question mark of the part before the first hash
(empty when there is no question mark). -/
def queryOf (url : List Char) : List Char :=
  match (splitFirst '?' (splitFirst '#' url).1).2 with
  | none => []
  | some q => q

/-- Value of a hexadecimal digit. -/
def hexVal (c : Char) : Option Nat :=
  if c.isDigit then some (c.toNat - '0'.toNat)
  else if 'a' ≤ c ∧ c ≤ 'f' then some (c.toNat - 'a'.toNat + 10)
  else if 'A' ≤ c ∧ c ≤ 'F' then some (c.toNat - 'A'.toNat + 10)
  else none

/-- Model of `urllib.parse.unquote_plus` on the byte level: plus becomes a
space, a percent sign followed by two hex digits becomes the character of
that byte, an invalid escape is kept verbatim.  (Python reassembles
multi-byte UTF-8 escape sequences; the URLs this repository handles only
carry ASCII escapes, for which this byte-level model is exact.) -/
def unquotePlus : List Char → List Char
  | [] => []
  | c :: rest =>
    if c = '+' then ' ' :: unquotePlus rest
    else if c = '%' then
      match rest with
      | a :: b :: rest2 =>
        (match hexVal a, hexVal b with
         | some x, some y => Char.ofNat (16 * x + y) :: unquotePlus rest2
         | _, _ => '%' :: unquotePlus (a :: b :: rest2))
      | [] => [c]
      | [a] => c :: unquotePlus [a]
    else c :: unquotePlus rest

/-- Treatment of one ampersand-separated field by `parse_qsl` with its
default arguments: empty fields, fields without an equals sign and fields
with an empty raw value are dropped; names and values are unquoted. -/
def qslField (field : List Char) : Option (List Char × List Char) :=
  if field.isEmpty then none
  else
    match (splitFirst '=' field).2 with
    | none => none
    | some v =>
      if v.isEmpty then none
      else some (unquotePlus (splitFirst '=' field).1, unquotePlus v)

/-- Model of `urllib.parse.parse_qsl` with its default arguments: the
fields split on ampersands, each treated by `qslField`. -/
def parse_qsl (qs : List Char) : List (List Char × List Char) :=
  (splitAll '&' qs).filterMap qslField

/-- Insertion into the dict of value lists that `parse_qs` builds: append
to the existing key's list, else add a new key. -/
def qsInsert (d : List (List Char × List (List Char))) (name value : List Char) :
    List (List Char × List (List Char)) :=
  match d with
  | [] => [(name, [value])]
  | (n, vs) :: rest =>
    if n = name then (n, vs ++ [value]) :: rest
    else (n, vs) :: qsInsert rest name value

/-- Model of `urllib.parse.parse_qs`: the parsed field list folded into a
dict from names to lists of values. -/
def parse_qs (qs : List Char) : List (List Char × List (List Char)) :=
  (parse_qsl qs).foldl (fun d p => qsInsert d p.1 p.2) []

/-- Embedding of `extract_code_from_url` (crs_service.py lines 164-183):
none for the empty URL, else `parse_qs(urlparse(url).query).get("code",
[None])[0]`; the head of the value list models the index 0 (the lists the
dict holds are never empty). -/
def extract_code_from_url (url : String) : Option String :=
  if url.isEmpty then none
  else
    match (parse_qs (queryOf url.toList)).find? (fun p => p.1 == "code".toList) with
    | some p => p.2.head?.map String.mk
    | none => none

/-- Specification-side treatment of one raw query field for claim C8:
blank values are kept, and a field without an equals sign counts as a name
with an empty value. -/
def rawField (field : List Char) : Option (List Char × List Char) :=
  if field.isEmpty then none
  else
    match (splitFirst '=' field).2 with
    | none => some (unquotePlus (splitFirst '=' field).1, [])
    | some v => some (unquotePlus (splitFirst '=' field).1, unquotePlus v)

/-- Specification-side view of the query string for claim C8: every raw
field, blank values included, as (name, value) pairs after unquoting. -/
def rawQsl (qs : List Char) : List (List Char × List Char) :=
  (splitAll '&' qs).filterMap rawField

/-! ## browser_automation.py: type_slowly (claim C2) -/

/-- Observable events of `type_slowly`: one `inp` per `element.input` call
(the characters sent and the clear flag) and one `sleep` per
`time.sleep`. -/
inductive TypeEv where
  | inp (chars : List Char) (clear : Bool)
  | sleep (secs : ℚ)
deriving DecidableEq

/-- Default typing delay `TYPING_DELAY` (browser_automation.py line 43). -/
def TYPING_DELAY (safeMode : Bool) : ℚ :=
  if safeMode then 12 / 100 else 6 / 100

/-- The characters after which `type_slowly` lengthens its delay
(browser_automation.py line 549). -/
def slowChars : List Char := " @._-".toList

/-- Delay slept after one character of the long-text path: the base delay
scaled by the sampled uniform factor, times 1.3 when the character is a
space or one of at-sign, dot, underscore, hyphen. -/
def charDelay (base r : ℚ) (c : Char) : ℚ :=
  let d := base * r
  if slowChars.contains c then d * (13 / 10) else d

/-- The per-character loop of `type_slowly` (browser_automation.py lines
545-551): each remaining character is input without clearing, followed by a
sleep of the sampled delay; `rs j` is the factor `random.uniform(0.5, 1.2)`
drawn for the character at position `j` of the remainder. -/
def typeRest (base : ℚ) (rs : Nat → ℚ) : List Char → Nat → List TypeEv
  | [], _ => []
  | c :: cs, j =>
    TypeEv.inp [c] false :: TypeEv.sleep (charDelay base (rs j) c) ::
      typeRest base rs cs (j + 1)

/-- Embedding of `type_slowly` (browser_automation.py lines 514-551):
empty text does nothing; text of at most eight characters is input in one
call with clearing; longer text is input character by character, the first
character with clearing followed by a sleep of `r0` (the sample of
`random.uniform(0.1, 0.2)`), each remaining character without clearing
followed by its sampled delay. -/
def type_slowly (text : List Char) (base : ℚ) (r0 : ℚ) (rs : Nat → ℚ) :
    List TypeEv :=
  if text.isEmpty then []
  else if text.length ≤ 8 then [TypeEv.inp text true]
  else
    match text with
    | [] => []
    | c :: cs => TypeEv.inp [c] true :: TypeEv.sleep r0 :: typeRest base rs cs 0

/-- The character payloads of the input events of a trace, in order. -/
def inputPayloads (evs : List TypeEv) : List (List Char) :=
  evs.filterMap (fun e =>
    match e with
    | TypeEv.inp cs _ => some cs
    | _ => none)

/-- Rendering of the claim that a trace sends the characters of `text` to
the element one at a time, in order: its input events carry exactly the
characters of `text`, one character each. -/
def sendsOneAtATime (text : List Char) (evs : List TypeEv) : Prop :=
  inputPayloads evs = text.map (fun c => [c])

/-! ## utils.py: the team tracker (claim C4) -/

/-- One account record of the tracker.  A password of none models a record
without the password key (`add_account_to_tracker` writes no password). -/
structure Account where
  email : String
  status : String
  password : Option String
  createdAt : String
  updatedAt : String
deriving DecidableEq, Repr

/-- The `tracker["teams"]` dict: team name to account list, none for an
absent key.  (The tracker's last_updated field plays no part in the
operations modelled here.) -/
def Tracker : Type := String → Option (List Account)

/-- Body of `add_account_to_tracker` on one team's list: the first record
with the given email has its status and updated_at overwritten, and when
none exists a new record with no password is appended. -/
def addToTrackerList (accs : List Account) (email status now : String) :
    List Account :=
  match accs with
  | [] => [{ email := email, status := status, password := none,
             createdAt := now, updatedAt := now }]
  | a :: rest =>
    if a.email = email then { a with status := status, updatedAt := now } :: rest
    else a :: addToTrackerList rest email status now

/-- Embedding of `add_account_to_tracker` (utils.py lines 71-96): the named
team's list (created empty when the team is absent) is updated in place or
extended by one record. -/
def add_account_to_tracker (tr : Tracker) (team email status now : String) :
    Tracker :=
  let accs := (tr team).getD []
  fun n => if n = team then some (addToTrackerList accs email status now) else tr n

/-- Body of `add_account_with_password` on one team's list: the first
record with the given email has its status, password and updated_at
overwritten, and when none exists a new record with the password is
appended. -/
def addWithPasswordList (accs : List Account) (email password status now : String) :
    List Account :=
  match accs with
  | [] => [{ email := email, status := status, password := some password,
             createdAt := now, updatedAt := now }]
  | a :: rest =>
    if a.email = email then
      { a with status := status, password := some password, updatedAt := now } :: rest
    else a :: addWithPasswordList rest email password status now

/-- Embedding of `add_account_with_password` (utils.py lines 154-174). -/
def add_account_with_password (tr : Tracker) (team email password status now : String) :
    Tracker :=
  let accs := (tr team).getD []
  fun n =>
    if n = team then some (addWithPasswordList accs email password status now)
    else tr n

/-- Body of `update_account_status` on one team's list: the first record
with the given email has its status and updated_at overwritten; nothing is
appended when none exists. -/
def updateStatusList (accs : List Account) (email status now : String) :
    List Account :=
  match accs with
  | [] => []
  | a :: rest =>
    if a.email = email then { a with status := status, updatedAt := now } :: rest
    else a :: updateStatusList rest email status now

/-- Embedding of `update_account_status` (utils.py lines 99-106): when the
team exists its list is updated in place, and an absent team leaves the
tracker untouched. -/
def update_account_status (tr : Tracker) (team email status now : String) :
    Tracker :=
  match tr team with
  | none => tr
  | some accs =>
    fun n => if n = team then some (updateStatusList accs email status now) else tr n

/-- Embedding of `get_team_account_count` (utils.py lines 109-113). -/
def get_team_account_count (tr : Tracker) (team : String) : Nat :=
  match tr team with
  | some accs => accs.length
  | none => 0

/-! ## browser_automation.py: the registration driver loop (claim C1) -/

/-- Bound of the registration loop, `max_steps = 10`
(browser_automation.py line 782). -/
def max_steps : Nat := 10

/-- Branches of one iteration of the registration loop, as the claim lists
them: the logged-in probe on chatgpt.com, the email page, the password
pages, the two pages that break out of the loop, and the fallback error
handling with its half-second sleep. -/
inductive Branch where
  | successCheck
  | emailStep
  | passwordStep
  | verifBreak
  | aboutBreak
  | errorStep
deriving DecidableEq, Repr

/-- Branch selection by the URL-substring tests of the loop, in source
order. -/
def branchOf (url : String) : Branch :=
  if substrB "chatgpt.com" url && !substrB "auth.openai.com" url then
    Branch.successCheck
  else if substrB "auth.openai.com/log-in-or-create-account" url then
    Branch.emailStep
  else if substrB "auth.openai.com/log-in/password" url ||
      substrB "auth.openai.com/create-account/password" url then
    Branch.passwordStep
  else if substrB "auth.openai.com/email-verification" url then
    Branch.verifBreak
  else if substrB "auth.openai.com/about-you" url then
    Branch.aboutBreak
  else
    Branch.errorStep

/-- Environment of the registration loop: the page URL observed at each
iteration and the outcomes of the in-branch probes (`is_logged_in`, false
also covering a swallowed exception; whether the email and password input
boxes are found). -/
structure RegOracle where
  urls : Nat → String
  loggedIn : Nat → Bool
  emailInputFound : Nat → Bool
  passwordBoxFound : Nat → Bool

/-- Exits of the registration loop of `register_openai_account`
(browser_automation.py lines 781-905): an early `return True` on a
logged-in chatgpt.com page, `return False` on a missing input box, the two
`break`s to the verification and about-you flows, and falling out of the
loop after `max_steps` iterations. -/
inductive RegOutcome where
  | retTrue
  | retFalse
  | toVerification
  | toAboutYou
  | stepsExhausted
deriving DecidableEq, Repr

/-- One iteration of the registration loop, mirroring the source's
sequential tests: the chatgpt.com block returns early only when the
logged-in probe succeeds and otherwise falls through to the subsequent URL
tests; the email and password blocks fail when their input box is missing
and otherwise continue; the verification and about-you tests break; and
when nothing matches the error handling runs and the loop continues.
The value none means the iteration continues with the next step. -/
def regIterate (o : RegOracle) (i : Nat) : Option RegOutcome :=
  let url := o.urls i
  if substrB "chatgpt.com" url && !substrB "auth.openai.com" url && o.loggedIn i then
    some RegOutcome.retTrue
  else if substrB "auth.openai.com/log-in-or-create-account" url then
    (if o.emailInputFound i then none else some RegOutcome.retFalse)
  else if substrB "auth.openai.com/log-in/password" url ||
      substrB "auth.openai.com/create-account/password" url then
    (if o.passwordBoxFound i then none else some RegOutcome.retFalse)
  else if substrB "auth.openai.com/email-verification" url then
    some RegOutcome.toVerification
  else if substrB "auth.openai.com/about-you" url then
    some RegOutcome.toAboutYou
  else
    none

/-- Specification-side action of one iteration as a function of the
selected branch alone: what the claim asserts the loop does once the URL
tests have picked a branch. -/
def branchAction (o : RegOracle) (i : Nat) : Branch → Option RegOutcome
  | Branch.successCheck => if o.loggedIn i then some RegOutcome.retTrue else none
  | Branch.emailStep => if o.emailInputFound i then none else some RegOutcome.retFalse
  | Branch.passwordStep => if o.passwordBoxFound i then none else some RegOutcome.retFalse
  | Branch.verifBreak => some RegOutcome.toVerification
  | Branch.aboutBreak => some RegOutcome.toAboutYou
  | Branch.errorStep => none

/-- The registration loop: run iterations while fuel lasts, stopping at the
first iteration that exits; the second component is the number of
iterations executed. -/
def regLoop (o : RegOracle) : Nat → Nat → RegOutcome × Nat
  | 0, _ => (RegOutcome.stepsExhausted, 0)
  | fuel + 1, i =>
    match regIterate o i with
    | some out => (out, 1)
    | none =>
      let r := regLoop o fuel (i + 1)
      (r.1, r.2 + 1)

/-- Embedding of the driver loop of `register_openai_account`
(browser_automation.py lines 781-905): at most `max_steps` iterations
starting from step 0. -/
def register_openai_account (o : RegOracle) : RegOutcome × Nat :=
  regLoop o max_steps 0

/-- Value list of a name in the dict `parse_qs` builds: the found entry's
list, else the empty list (`params.get(name, [None])` holds no value in the
absent case). -/
def qsValues (d : List (List Char × List (List Char))) (name : List Char) :
    List (List Char) :=
  ((d.find? (fun p => p.1 == name)).map Prod.snd).getD []

/-! ## Theorems -/

theorem monthLength_ge28 (y m : Nat) : 28 ≤ monthLength y m := by
  unfold monthLength
  split
  · split <;> omega
  · split <;> omega

theorem yearRepr_val (y : Nat) (h1 : 2000 ≤ y) (h2 : y ≤ 2005) :
    strVal (Nat.repr y) = y := by
  interval_cases y <;> decide

theorem monthRepr_val (m : Nat) (h1 : 1 ≤ m) (h2 : m ≤ 12) :
    (zfill 2 (Nat.repr m)).length = 2 ∧ strVal (zfill 2 (Nat.repr m)) = m := by
  interval_cases m <;> exact ⟨by decide, by decide⟩

theorem dayRepr_val (d : Nat) (h1 : 1 ≤ d) (h2 : d ≤ 28) :
    (zfill 2 (Nat.repr d)).length = 2 ∧ strVal (zfill 2 (Nat.repr d)) = d := by
  interval_cases d <;> exact ⟨by decide, by decide⟩

/-- C10: every dict returned by get_random_birthday denotes a valid
calendar date: the year is a numeral in 2000 to 2005, the month a
two-digit zero-padded numeral in 01 to 12, the day a two-digit zero-padded
numeral in 01 to 28, and the day never exceeds the length of the month in
the returned year. -/
theorem claim_C10 (y m d : Nat)
    (hy1 : 2000 ≤ y) (hy2 : y ≤ 2005) (hm1 : 1 ≤ m) (hm2 : m ≤ 12)
    (hd1 : 1 ≤ d) (hd2 : d ≤ 28) :
    strVal (get_random_birthday y m d).year = y ∧
    (get_random_birthday y m d).month.length = 2 ∧
    strVal (get_random_birthday y m d).month = m ∧
    (get_random_birthday y m d).day.length = 2 ∧
    strVal (get_random_birthday y m d).day = d ∧
    d ≤ monthLength y m := by
  refine ⟨yearRepr_val y hy1 hy2, (monthRepr_val m hm1 hm2).1,
    (monthRepr_val m hm1 hm2).2, (dayRepr_val d hd1 hd2).1,
    (dayRepr_val d hd1 hd2).2, le_trans hd2 (monthLength_ge28 y m)⟩

/-- Witness for C10 at the concrete sample year 2004, month 2, day 28. -/
theorem claim_C10_witness :
    strVal (get_random_birthday 2004 2 28).year = 2004 ∧
    (get_random_birthday 2004 2 28).month.length = 2 ∧
    strVal (get_random_birthday 2004 2 28).month = 2 ∧
    (get_random_birthday 2004 2 28).day.length = 2 ∧
    strVal (get_random_birthday 2004 2 28).day = 28 ∧
    28 ≤ monthLength 2004 2 :=
  claim_C10 2004 2 28 (by decide) (by decide) (by decide) (by decide)
    (by decide) (by decide)

theorem mkTeamEntry_user_none (i : Nat) (t : List (String × Jv)) :
    dictGet (mkTeamEntry i t) "user" = none := rfl

theorem mkTeamEntry_account_none (i : Nat) (t : List (String × Jv)) :
    dictGet (mkTeamEntry i t) "account" = none := rfl

theorem mkTeamsFrom_find_email (raw : List (List (String × Jv))) (email : String) :
    ∀ i, (mkTeamsFrom i raw).find? (fun t =>
      pyEqStr (dictGet (asObj ((dictGet t "user").getD (Jv.jobj []))) "email")
        email) = none := by
  induction raw with
  | nil => intro i; rfl
  | cons t ts ih =>
    intro i
    have hp : pyEqStr
        (dictGet (asObj ((dictGet (mkTeamEntry i t) "user").getD (Jv.jobj [])))
          "email") email = false := rfl
    simp only [mkTeamsFrom, List.find?, hp]
    exact ih (i + 1)

theorem mkTeamsFrom_find_org (raw : List (List (String × Jv))) (orgId : String) :
    ∀ i, (mkTeamsFrom i raw).find? (fun t =>
      pyEqStr
        (dictGet (asObj ((dictGet t "account").getD (Jv.jobj []))) "organizationId")
        orgId) = none := by
  induction raw with
  | nil => intro i; rfl
  | cons t ts ih =>
    intro i
    have hp : pyEqStr
        (dictGet (asObj ((dictGet (mkTeamEntry i t) "account").getD (Jv.jobj [])))
          "organizationId") orgId = false := rfl
    simp only [mkTeamsFrom, List.find?, hp]
    exact ih (i + 1)

theorem mkTeamsFrom_keys (raw : List (List (String × Jv))) :
    ∀ i, ((mkTeamsFrom i raw).all fun e =>
      e.map Prod.fst == ["name", "account_id", "org_id", "auth_token", "raw"]) = true := by
  induction raw with
  | nil => intro i; rfl
  | cons t ts ih =>
    intro i
    have hk : ((mkTeamEntry i t).map Prod.fst ==
        ["name", "account_id", "org_id", "auth_token", "raw"]) = true := rfl
    simp only [mkTeamsFrom, List.all_cons, hk, Bool.true_and]
    exact ih (i + 1)

/-- C9: for every team.json content and every email and organization id,
get_team_by_email and get_team_by_org return the empty dict, because the
entries of TEAMS carry only the keys name, account_id, org_id, auth_token
and raw and so never have the top-level user or account keys these lookups
consult. -/
theorem claim_C9 (raw : List (List (String × Jv))) (email orgId : String) :
    get_team_by_email (teamsOf raw) email = [] ∧
    get_team_by_org (teamsOf raw) orgId = [] ∧
    ((teamsOf raw).all fun e =>
      e.map Prod.fst == ["name", "account_id", "org_id", "auth_token", "raw"]) = true := by
  refine ⟨?_, ?_, mkTeamsFrom_keys raw 0⟩
  · unfold get_team_by_email teamsOf
    rw [mkTeamsFrom_find_email raw email 0]
    rfl
  · unfold get_team_by_org teamsOf
    rw [mkTeamsFrom_find_org raw orgId 0]
    rfl

theorem urlMatches_iff (oldUrl : String) (contains : Option String) (u : String) :
    urlMatches oldUrl contains u = true ↔
      (u ≠ oldUrl ∧ ∀ c, contains = some c → substrB c u = true) := by
  unfold urlMatches
  cases contains <;> simp [bne_iff_ne]

/-- C7: wait_for_url_change returns true exactly when one of the URL reads
that happen within the timeout succeeds and yields a URL that differs from
the old URL and contains the requested substring when one is given; reads
that raise are skipped and can never make it return true. -/
theorem claim_C7 (polls : List (Option String)) (oldUrl : String)
    (contains : Option String) :
    wait_for_url_change polls oldUrl contains = true ↔
      ∃ u, some u ∈ polls ∧ u ≠ oldUrl ∧
        ∀ c, contains = some c → substrB c u = true := by
  induction polls with
  | nil => simp [wait_for_url_change]
  | cons p rest ih =>
    cases p with
    | none =>
      rw [wait_for_url_change, ih]
      constructor
      · rintro ⟨u, hu, h1, h2⟩
        exact ⟨u, List.mem_cons_of_mem _ hu, h1, h2⟩
      · rintro ⟨u, hu, h1, h2⟩
        rcases List.mem_cons.mp hu with h | h
        · exact absurd h (by simp)
        · exact ⟨u, h, h1, h2⟩
    | some v =>
      by_cases h : urlMatches oldUrl contains v = true
      · rw [wait_for_url_change]
        simp only [h, if_true]
        constructor
        · intro _
          exact ⟨v, List.mem_cons_self _ _, (urlMatches_iff oldUrl contains v).mp h⟩
        · intro _; trivial
      · rw [wait_for_url_change]
        rw [if_neg h, ih]
        constructor
        · rintro ⟨u, hu, h1, h2⟩
          exact ⟨u, List.mem_cons_of_mem _ hu, h1, h2⟩
        · rintro ⟨u, hu, h1, h2⟩
          rcases List.mem_cons.mp hu with heq | hm
          · exfalso
            have : urlMatches oldUrl contains u = true :=
              (urlMatches_iff oldUrl contains u).mpr ⟨h1, h2⟩
            rw [Option.some.injEq] at heq
            exact h (heq ▸ this)
          · exact ⟨u, hm, h1, h2⟩

theorem initLoop_count_le {Page Err : Type} (attempts : Nat → Except Err Page) :
    ∀ fuel i last, (initLoop attempts last fuel i).2 ≤ fuel := by
  intro fuel
  induction fuel with
  | zero => intro i last; simp [initLoop]
  | succ n ih =>
    intro i last
    simp only [initLoop]
    cases attempts i with
    | ok p => simp
    | error e =>
      have := ih (i + 1) (some e)
      simp only []
      omega

theorem initLoop_success {Page Err : Type} (attempts : Nat → Except Err Page) (p : Page) :
    ∀ fuel i last j, i ≤ j → j < i + fuel →
      (∀ k, i ≤ k → k < j → ∃ e, attempts k = Except.error e) →
      attempts j = Except.ok p →
      initLoop attempts last fuel i = (Except.ok p, j - i + 1) := by
  intro fuel
  induction fuel with
  | zero => intro i last j h1 h2 _ _; omega
  | succ n ih =>
    intro i last j h1 h2 hf hj
    by_cases hij : i = j
    · subst hij
      simp only [initLoop, hj]
      simp
    · obtain ⟨e, he⟩ := hf i (le_refl i) (by omega)
      simp only [initLoop, he]
      rw [ih (i + 1) (some e) j (by omega) (by omega)
        (fun k hk1 hk2 => hf k (by omega) hk2) hj]
      simp only [Prod.mk.injEq]
      exact ⟨by trivial, by omega⟩

theorem initLoop_allfail {Page Err : Type} (attempts : Nat → Except Err Page)
    (errs : Nat → Err) :
    ∀ fuel i last, 1 ≤ fuel →
      (∀ k, i ≤ k → k < i + fuel → attempts k = Except.error (errs k)) →
      initLoop attempts last fuel i =
        (Except.error (some (errs (i + fuel - 1))), fuel) := by
  intro fuel
  induction fuel with
  | zero => intro i last h _; omega
  | succ n ih =>
    intro i last _ hf
    have he : attempts i = Except.error (errs i) := hf i (le_refl i) (by omega)
    simp only [initLoop, he]
    cases n with
    | zero => simp [initLoop]
    | succ m =>
      rw [ih (i + 1) (some (errs i)) (by omega)
        (fun k hk1 hk2 => hf k (by omega) (by omega))]
      simp only [Prod.mk.injEq]
      constructor
      · have : i + 1 + (m + 1) - 1 = i + (m + 1 + 1) - 1 := by omega
        rw [this]
      · trivial

/-- C6: init_browser makes at most max_retries launch attempts (default
BROWSER_MAX_RETRIES = 3), returns the page of the first successful attempt
without further attempts, and when every attempt raises it re-raises the
exception of the last attempt instead of returning a page. -/
theorem claim_C6 :
    BROWSER_MAX_RETRIES = 3 ∧
    (∀ (Page Err : Type) (maxRetries : Nat) (attempts : Nat → Except Err Page),
      (init_browser maxRetries attempts).2 ≤ maxRetries) ∧
    (∀ (Page Err : Type) (maxRetries : Nat) (attempts : Nat → Except Err Page)
      (j : Nat) (p : Page), j < maxRetries →
      (∀ k, k < j → ∃ e, attempts k = Except.error e) →
      attempts j = Except.ok p →
      init_browser maxRetries attempts = (Except.ok p, j + 1)) ∧
    (∀ (Page Err : Type) (maxRetries : Nat) (attempts : Nat → Except Err Page)
      (errs : Nat → Err), 1 ≤ maxRetries →
      (∀ k, k < maxRetries → attempts k = Except.error (errs k)) →
      init_browser maxRetries attempts =
        (Except.error (some (errs (maxRetries - 1))), maxRetries)) := by
  refine ⟨rfl, ?_, ?_, ?_⟩
  · intro Page Err maxRetries attempts
    exact initLoop_count_le attempts maxRetries 0 none
  · intro Page Err maxRetries attempts j p hj hf hok
    have := initLoop_success attempts p maxRetries 0 none j (by omega) (by omega)
      (fun k _ hk2 => hf k hk2) hok
    simpa [init_browser] using this
  · intro Page Err maxRetries attempts errs h1 hf
    have := initLoop_allfail attempts errs maxRetries 0 none h1
      (fun k _ hk2 => hf k (by omega))
    simpa [init_browser] using this

/-- Witness for C6: with three attempts of which the first fails and the
second succeeds, init_browser returns the second attempt's page after
exactly two attempts. -/
theorem claim_C6_witness :
    init_browser 3 (fun i => if i = 0 then Except.error "boom" else Except.ok (37 : Nat)) =
      (Except.ok 37, 2) := by
  refine claim_C6.2.2.1 Nat String 3
    (fun i => if i = 0 then Except.error "boom" else Except.ok (37 : Nat)) 1 37
    (by omega) ?_ rfl
  intro k hk
  have : k = 0 := by omega
  subst this
  exact ⟨"boom", rfl⟩

theorem pollCount_cons_poll (i : Nat) (l : List PollEv) :
    pollCount (PollEv.poll i :: l) = pollCount l + 1 := by
  simp [pollCount, List.filter]

theorem pollCount_cons_sleep (s : Nat) (l : List PollEv) :
    pollCount (PollEv.sleep s :: l) = pollCount l := by
  simp [pollCount, List.filter]

theorem pollLoopF_count_le (attempt : Nat → Option (String × String)) (interval : Nat) :
    ∀ fuel i, pollCount (pollLoopF attempt interval fuel i).2 ≤ fuel := by
  intro fuel
  induction fuel with
  | zero => intro i; simp [pollLoopF, pollCount]
  | succ n ih =>
    intro i
    simp only [pollLoopF]
    cases h : attempt i with
    | some ct =>
      obtain ⟨c, t⟩ := ct
      simp [pollCount, List.filter]
    | none =>
      by_cases hn : n = 0
      · subst hn
        simp [pollCount, List.filter]
      · rw [if_neg hn]
        simp only []
        rw [pollCount_cons_poll, pollCount_cons_sleep]
        have := ih (i + 1)
        omega

theorem pollLoopF_allfail (attempt : Nat → Option (String × String)) (interval : Nat) :
    ∀ fuel i, (∀ k, i ≤ k → k < i + fuel → attempt k = none) →
      pollLoopF attempt interval fuel i = (gvcFailure, alternatingPolls interval fuel i) := by
  intro fuel
  induction fuel with
  | zero => intro i _; simp [pollLoopF, alternatingPolls]
  | succ n ih =>
    intro i h
    have h0 : attempt i = none := h i (le_refl i) (by omega)
    simp only [pollLoopF, h0]
    cases n with
    | zero => simp [alternatingPolls]
    | succ m =>
      rw [if_neg (by omega)]
      rw [ih (i + 1) (fun k h1 h2 => h k (by omega) (by omega))]
      rfl

theorem pollLoopF_success (attempt : Nat → Option (String × String))
    (interval : Nat) (c t : String) :
    ∀ fuel i j, i ≤ j → j < i + fuel →
      (∀ k, i ≤ k → k < j → attempt k = none) →
      attempt j = some (c, t) →
      pollLoopF attempt interval fuel i =
        ({ code := some c, err := none, emailTime := some t },
          alternatingPolls interval (j - i + 1) i) := by
  intro fuel
  induction fuel with
  | zero => intro i j h1 h2 _ _; omega
  | succ n ih =>
    intro i j h1 h2 hf hj
    by_cases hij : i = j
    · subst hij
      simp only [pollLoopF, hj]
      rw [show i - i + 1 = 1 from by omega]
      rfl
    · have h0 : attempt i = none := hf i (le_refl i) (by omega)
      simp only [pollLoopF, h0]
      rw [if_neg (by omega)]
      rw [ih (i + 1) j (by omega) (by omega)
        (fun k hk1 hk2 => hf k (by omega) hk2) hj]
      rw [show j - i + 1 = (j - (i + 1)) + 2 from by omega]
      rfl

/-- C5: get_verification_code (in its default, non-GPTMail mode) polls the
mail API at most max_retries times, where the default of
VERIFICATION_CODE_MAX_RETRIES is 20; it sleeps the interval between
consecutive attempts and not after the last; it returns (code, None,
email_time) at the first attempt whose newest email's subject yields a
six-digit code; and when no attempt yields a code it returns exactly
(None, the Chinese failure message, None). -/
theorem claim_C5 (maxRetries interval : Nat) (responses : Nat → MailResp)
    (gptFetch : Nat → Option (List GMail)) (startTs : Int) :
    VERIFICATION_CODE_MAX_RETRIES none = 20 ∧
    pollCount (get_verification_code maxRetries interval false responses gptFetch startTs).2
      ≤ maxRetries ∧
    ((∀ k, k < maxRetries → classicAttempt (responses k) = none) →
      get_verification_code maxRetries interval false responses gptFetch startTs =
        (gvcFailure, alternatingPolls interval maxRetries 0)) ∧
    (∀ j, j < maxRetries →
      (∀ k, k < j → classicAttempt (responses k) = none) →
      ∀ msg rest g, responses j = MailResp.resp 200 (msg :: rest) →
        subjectCode msg.subject.toList = some g →
        get_verification_code maxRetries interval false responses gptFetch startTs =
          ({ code := some (String.mk g), err := none, emailTime := some msg.createTime },
            alternatingPolls interval (j + 1) 0)) := by
  refine ⟨rfl, ?_, ?_, ?_⟩
  · simp only [get_verification_code, Bool.false_eq_true, if_false]
    exact pollLoopF_count_le _ interval maxRetries 0
  · intro hf
    simp only [get_verification_code, Bool.false_eq_true, if_false]
    exact pollLoopF_allfail _ interval maxRetries 0 (fun k _ hk2 => hf k (by omega))
  · intro j hj hf msg rest g hresp hsubj
    simp only [get_verification_code, Bool.false_eq_true, if_false]
    have hat : classicAttempt (responses j) = some (String.mk g, msg.createTime) := by
      rw [hresp]
      simp only [classicAttempt]
      have hc : ((200 : Int) == 200) = true := rfl
      rw [if_pos hc, hsubj]
    have := pollLoopF_success (fun i => classicAttempt (responses i)) interval
      (String.mk g) msg.createTime maxRetries 0 j (by omega) (by omega)
      (fun k _ hk2 => hf k hk2) hat
    rw [this]
    rw [show j - 0 + 1 = j + 1 from by omega]

/-- Witness for C5: two attempts, the first raising and the second
returning a list whose newest email's subject contains the code, give the
success triple and the trace poll, sleep, poll. -/
theorem claim_C5_witness :
    get_verification_code 2 3 false
      (fun i => if i = 0 then MailResp.exn
        else MailResp.resp 200 [{ subject := "code is 123456", createTime := "2024-01-01" }])
      (fun _ => none) 0 =
      ({ code := some "123456", err := none, emailTime := some "2024-01-01" },
        alternatingPolls 3 2 0) := by
  refine (claim_C5 2 3
    (fun i => if i = 0 then MailResp.exn
      else MailResp.resp 200 [{ subject := "code is 123456", createTime := "2024-01-01" }])
    (fun _ => none) 0).2.2.2 1 (by omega) ?_
    { subject := "code is 123456", createTime := "2024-01-01" } [] "123456".toList
    rfl (by decide)
  intro k hk
  have : k = 0 := by omega
  subst this
  rfl

theorem take6Digits_spec (cs g : List Char) (h : take6Digits cs = some g) :
    g.length = 6 ∧ g.all Char.isDigit = true := by
  simp only [take6Digits] at h
  split at h
  · next hc =>
    cases h
    simpa [Bool.and_eq_true] using hc
  · exact absurd h (by simp)

theorem matchKwd_spec (kwd cs g : List Char) (ci : Bool)
    (h : matchKwd kwd ci cs = some g) :
    g.length = 6 ∧ g.all Char.isDigit = true := by
  simp only [matchKwd] at h
  by_cases hp : (if ci then ciPrefixB kwd cs else kwd.isPrefixOf cs) = true
  · rw [if_pos hp] at h
    exact take6Digits_spec _ _ h
  · rw [if_neg hp] at h
    exact absurd h (by simp)

theorem reSearch_spec (m : List Char → Option (List Char))
    (P : List Char → Prop) (hm : ∀ cs g, m cs = some g → P g) :
    ∀ text g, reSearch m text = some g → P g := by
  intro text
  induction text with
  | nil => intro g h; exact hm [] g h
  | cons c rest ih =>
    intro g h
    simp only [reSearch] at h
    cases hc : m (c :: rest) with
    | some g2 => rw [hc] at h; cases h; exact hm _ _ hc
    | none => rw [hc] at h; exact ih g h

theorem bounded6At_spec (prev : Option Char) (cs g : List Char)
    (h : bounded6At prev cs = some g) :
    g.length = 6 ∧ g.all Char.isDigit = true := by
  simp only [bounded6At] at h
  cases h6 : take6Digits cs with
  | none => rw [h6] at h; exact absurd h (by simp)
  | some g2 =>
    rw [h6] at h
    simp only [] at h
    split at h
    · cases h; exact take6Digits_spec _ _ h6
    · exact absurd h (by simp)

theorem searchBounded6_spec :
    ∀ (text : List Char) (prev : Option Char) (g : List Char),
      searchBounded6 prev text = some g →
      g.length = 6 ∧ g.all Char.isDigit = true := by
  intro text
  induction text with
  | nil => intro prev g h; exact absurd h (by simp [searchBounded6])
  | cons c rest ih =>
    intro prev g h
    simp only [searchBounded6] at h
    cases hc : bounded6At prev (c :: rest) with
    | some g2 => rw [hc] at h; cases h; exact bounded6At_spec _ _ _ hc
    | none => rw [hc] at h; exact ih (some c) g h

/-- C3: for every text, _extract_verification_code returns the six-digit
group of the first matching pattern in the fixed order Chinese keyword,
English keyword (case-insensitively), standalone word-bounded six-digit
number, and returns the empty string when the text is empty or no pattern
matches; every non-empty result is six digits. -/
theorem claim_C3 (text : List Char) :
    (text = [] → extract_verification_code text = []) ∧
    (∀ g, reSearch (matchKwd kwDaima true) text = some g →
      extract_verification_code text = g) ∧
    (reSearch (matchKwd kwDaima true) text = none →
      ∀ g, reSearch (matchKwd kwCodeIs true) text = some g →
      extract_verification_code text = g) ∧
    (reSearch (matchKwd kwDaima true) text = none →
      reSearch (matchKwd kwCodeIs true) text = none →
      ∀ g, searchBounded6 none text = some g →
      extract_verification_code text = g) ∧
    (reSearch (matchKwd kwDaima true) text = none →
      reSearch (matchKwd kwCodeIs true) text = none →
      searchBounded6 none text = none →
      extract_verification_code text = []) ∧
    (extract_verification_code text ≠ [] →
      (extract_verification_code text).length = 6 ∧
      (extract_verification_code text).all Char.isDigit = true) := by
  by_cases he : text.isEmpty = true
  · have ht : text = [] := List.isEmpty_iff.mp he
    subst ht
    refine ⟨fun _ => rfl, ?_, ?_, ?_, fun _ _ _ => rfl, fun h => absurd rfl h⟩
    · intro g h
      exact Option.noConfusion (show (none : Option (List Char)) = some g from h)
    · intro _ g h
      exact Option.noConfusion (show (none : Option (List Char)) = some g from h)
    · intro _ _ g h
      exact Option.noConfusion (show (none : Option (List Char)) = some g from h)
  · have hx : extract_verification_code text =
        (match reSearch (matchKwd kwDaima true) text with
        | some g => g
        | none =>
          match reSearch (matchKwd kwCodeIs true) text with
          | some g => g
          | none =>
            match searchBounded6 none text with
            | some g => g
            | none => []) := by
      unfold extract_verification_code
      rw [if_neg he]
    refine ⟨?_, ?_, ?_, ?_, ?_, ?_⟩
    case _ =>
      intro h
      exact absurd (by simp [h]) he
    · intro g h
      rw [hx, h]
    · intro h1 g h
      rw [hx, h1, h]
    · intro h1 h2 g h
      rw [hx, h1, h2, h]
    · intro h1 h2 h3
      rw [hx, h1, h2, h3]
    · intro hne
      rw [hx] at hne ⊢
      cases h1 : reSearch (matchKwd kwDaima true) text with
      | some g0 =>
        exact reSearch_spec _ _ (fun cs g2 h2 => matchKwd_spec _ _ _ _ h2) text g0 h1
      | none =>
        rw [h1] at hne
        cases h2 : reSearch (matchKwd kwCodeIs true) text with
        | some g0 =>
          exact reSearch_spec _ _ (fun cs g2 hh => matchKwd_spec _ _ _ _ hh) text g0 h2
        | none =>
          rw [h2] at hne
          cases h3 : searchBounded6 none text with
          | some g0 => exact searchBounded6_spec text none g0 h3
          | none =>
            rw [h3] at hne
            exact absurd rfl hne

/-- Witness for C3: the English pattern fires when the Chinese one does
not, the Chinese pattern takes priority over a later English match, and
the empty text yields the empty string. -/
theorem claim_C3_witness :
    extract_verification_code "Your code is 123456!".toList = "123456".toList ∧
    extract_verification_code "代码为 654321, code is 111111".toList = "654321".toList ∧
    extract_verification_code ([] : List Char) = [] :=
  ⟨(claim_C3 _).2.2.1 (by decide) _ (by decide),
   (claim_C3 _).2.1 _ (by decide),
   (claim_C3 _).1 rfl⟩

theorem hasSubList_iff (n : List Char) :
    ∀ h, hasSubList n h = true ↔ n <:+: h := by
  intro h
  induction h with
  | nil => simp [hasSubList, List.isEmpty_iff]
  | cons c rest ih =>
    simp [hasSubList, Bool.or_eq_true, ih, List.infix_cons_iff,
      List.isPrefixOf_iff_prefix]

theorem substrB_false_of_prefix (s t u : String) (hpre : s.toList <+: t.toList)
    (h : substrB s u = false) : substrB t u = false := by
  cases ht : substrB t u
  · rfl
  · exfalso
    have h2 : t.toList <:+: u.toList := (hasSubList_iff _ _).mp ht
    have h3 : s.toList <:+: u.toList := hpre.isInfix.trans h2
    have h4 : substrB s u = true := (hasSubList_iff _ _).mpr h3
    rw [h] at h4
    exact Bool.noConfusion h4

theorem regIterate_dispatch (o : RegOracle) (i : Nat) :
    regIterate o i = branchAction o i (branchOf (o.urls i)) := by
  by_cases h1 : (substrB "chatgpt.com" (o.urls i) &&
      !substrB "auth.openai.com" (o.urls i)) = true
  · have hauth : substrB "auth.openai.com" (o.urls i) = false := by
      have := (Bool.and_eq_true _ _).mp h1
      simpa using this.2
    have t2 : substrB "auth.openai.com/log-in-or-create-account" (o.urls i) = false :=
      substrB_false_of_prefix _ _ _ (List.isPrefixOf_iff_prefix.mp (by decide)) hauth
    have t3a : substrB "auth.openai.com/log-in/password" (o.urls i) = false :=
      substrB_false_of_prefix _ _ _ (List.isPrefixOf_iff_prefix.mp (by decide)) hauth
    have t3b : substrB "auth.openai.com/create-account/password" (o.urls i) = false :=
      substrB_false_of_prefix _ _ _ (List.isPrefixOf_iff_prefix.mp (by decide)) hauth
    have t4 : substrB "auth.openai.com/email-verification" (o.urls i) = false :=
      substrB_false_of_prefix _ _ _ (List.isPrefixOf_iff_prefix.mp (by decide)) hauth
    have t5 : substrB "auth.openai.com/about-you" (o.urls i) = false :=
      substrB_false_of_prefix _ _ _ (List.isPrefixOf_iff_prefix.mp (by decide)) hauth
    by_cases hL : o.loggedIn i = true
    · simp [regIterate, branchOf, branchAction, h1, hL]
    · simp [regIterate, branchOf, branchAction, h1, hL, t2, t3a, t3b, t4, t5]
  · have h1f : (substrB "chatgpt.com" (o.urls i) &&
        !substrB "auth.openai.com" (o.urls i)) = false := by
      simpa using h1
    by_cases t2 : substrB "auth.openai.com/log-in-or-create-account" (o.urls i) = true
    · simp [regIterate, branchOf, branchAction, h1f, t2]
    · by_cases t3 : (substrB "auth.openai.com/log-in/password" (o.urls i) ||
          substrB "auth.openai.com/create-account/password" (o.urls i)) = true
      · simp [regIterate, branchOf, branchAction, h1f, t2, t3]
      · by_cases t4 : substrB "auth.openai.com/email-verification" (o.urls i) = true
        · simp [regIterate, branchOf, branchAction, h1f, t2, t3, t4]
        · by_cases t5 : substrB "auth.openai.com/about-you" (o.urls i) = true
          · simp [regIterate, branchOf, branchAction, h1f, t2, t3, t4, t5]
          · simp [regIterate, branchOf, branchAction, h1f, t2, t3, t4, t5]

theorem regLoop_le (o : RegOracle) : ∀ fuel i, (regLoop o fuel i).2 ≤ fuel := by
  intro fuel
  induction fuel with
  | zero => intro i; simp [regLoop]
  | succ n ih =>
    intro i
    simp only [regLoop]
    cases regIterate o i with
    | some out => simp
    | none =>
      simp only []
      have := ih (i + 1)
      omega

/-- C1: the registration driver loop runs at most max_steps = 10
iterations for every environment, and the action of every iteration is
the one selected purely by the URL-substring tests on the current page
URL (chatgpt.com without auth.openai.com, the log-in-or-create-account
page, the two password pages, the email-verification page, the about-you
page, else the error-handling fallback). -/
theorem claim_C1 (o : RegOracle) :
    max_steps = 10 ∧
    (register_openai_account o).2 ≤ max_steps ∧
    ∀ i, regIterate o i = branchAction o i (branchOf (o.urls i)) :=
  ⟨rfl, regLoop_le o max_steps 0, fun i => regIterate_dispatch o i⟩

theorem inputPayloads_typeRest (base : ℚ) (rs : Nat → ℚ) :
    ∀ (cs : List Char) (k : Nat),
      inputPayloads (typeRest base rs cs k) = cs.map (fun c => [c]) := by
  intro cs
  induction cs with
  | nil => intro k; rfl
  | cons c rest ih =>
    intro k
    simp only [typeRest, inputPayloads, List.filterMap_cons]
    simp only [inputPayloads] at ih
    rw [ih (k + 1)]
    rfl

theorem typeRest_get (base : ℚ) (rs : Nat → ℚ) :
    ∀ (cs : List Char) (k j : Nat) (hj : j < cs.length),
      (typeRest base rs cs k).get? (2 * j) =
        some (TypeEv.inp [cs.get ⟨j, hj⟩] false) ∧
      (typeRest base rs cs k).get? (2 * j + 1) =
        some (TypeEv.sleep (charDelay base (rs (k + j)) (cs.get ⟨j, hj⟩))) := by
  intro cs
  induction cs with
  | nil => intro k j hj; exact absurd hj (by simp)
  | cons c rest ih =>
    intro k j hj
    cases j with
    | zero => exact ⟨rfl, rfl⟩
    | succ m =>
      have hm : m < rest.length := by simpa using Nat.lt_of_succ_lt_succ hj
      have h2 : 2 * (m + 1) = 2 * m + 1 + 1 := by ring
      have h3 : 2 * (m + 1) + 1 = 2 * m + 1 + 1 + 1 := by ring
      have hk : k + (m + 1) = (k + 1) + m := by ring
      constructor
      · rw [h2]
        simp only [typeRest, List.get?_cons_succ]
        exact (ih (k + 1) m hm).1
      · rw [h3]
        simp only [typeRest, List.get?_cons_succ]
        rw [(ih (k + 1) m hm).2]
        rw [hk]
        rfl

/-- Counterexample to C2 as stated: the six-character text code42 is not
empty, yet type_slowly sends it to the element in a single input call, not
one character at a time. -/
theorem claim_C2_counterexample :
    "code42".toList ≠ [] ∧
    ¬ sendsOneAtATime "code42".toList
      (type_slowly "code42".toList 1 1 (fun _ => 1)) := by
  constructor
  · decide
  · unfold sendsOneAtATime
    decide

/-- C2 (amended): for text of at most eight characters type_slowly sends
the whole text in one input call; only for longer text does it send the
characters one at a time in order, the first with clearing followed by the
uniform(0.1, 0.2) pause, each later character followed by base_delay times
the uniform(0.5, 1.2) sample, multiplied by 1.3 when that character is a
space or one of at-sign, dot, underscore, hyphen. -/
theorem claim_C2 (text : List Char) (base r0 : ℚ) (rs : Nat → ℚ)
    (h : text ≠ []) :
    (text.length ≤ 8 → type_slowly text base r0 rs = [TypeEv.inp text true]) ∧
    (8 < text.length →
      sendsOneAtATime text (type_slowly text base r0 rs) ∧
      (type_slowly text base r0 rs).get? 0 = some (TypeEv.inp (text.take 1) true) ∧
      (type_slowly text base r0 rs).get? 1 = some (TypeEv.sleep r0) ∧
      ∀ j (hj : j + 1 < text.length),
        (type_slowly text base r0 rs).get? (2 * j + 2) =
          some (TypeEv.inp [text.get ⟨j + 1, hj⟩] false) ∧
        (type_slowly text base r0 rs).get? (2 * j + 3) =
          some (TypeEv.sleep (charDelay base (rs j) (text.get ⟨j + 1, hj⟩)))) := by
  have hne : text.isEmpty ≠ true := by
    cases text with
    | nil => exact absurd rfl h
    | cons c cs => simp
  constructor
  · intro h8
    unfold type_slowly
    rw [if_neg hne, if_pos h8]
  · intro h8
    cases text with
    | nil => exact absurd rfl h
    | cons c cs =>
      have hx : type_slowly (c :: cs) base r0 rs =
          TypeEv.inp [c] true :: TypeEv.sleep r0 :: typeRest base rs cs 0 := by
        unfold type_slowly
        rw [if_neg hne, if_neg (by omega)]
      refine ⟨?_, ?_, ?_, ?_⟩
      · unfold sendsOneAtATime
        rw [hx]
        have hip := inputPayloads_typeRest base rs cs 0
        simp only [inputPayloads] at hip
        simp only [inputPayloads, List.filterMap_cons]
        rw [hip]
        rfl
      · rw [hx]; rfl
      · rw [hx]; rfl
      · intro j hj
        rw [hx]
        have hj2 : j < cs.length := by simpa using Nat.lt_of_succ_lt_succ hj
        have hg := typeRest_get base rs cs 0 j hj2
        have e2 : 2 * j + 2 = (2 * j) + 1 + 1 := by ring
        have e3 : 2 * j + 3 = (2 * j + 1) + 1 + 1 := by ring
        constructor
        · rw [e2]
          simp only [List.get?_cons_succ]
          exact hg.1
        · rw [e3]
          simp only [List.get?_cons_succ]
          rw [hg.2]
          rw [Nat.zero_add]
          rfl

/-- Witness for the amended C2 at a ten-character text. -/
theorem claim_C2_witness :
    sendsOneAtATime "alice@mail".toList
      (type_slowly "alice@mail".toList 1 1 (fun _ => 1)) :=
  ((claim_C2 "alice@mail".toList 1 1 (fun _ => 1) (by decide)).2 (by decide)).1

theorem addToTrackerList_present (accs : List Account) (email status now : String)
    (h : email ∈ accs.map Account.email) :
    (addToTrackerList accs email status now).map Account.email =
      accs.map Account.email := by
  induction accs with
  | nil => simp at h
  | cons a rest ih =>
    simp only [addToTrackerList]
    by_cases ha : a.email = email
    · rw [if_pos ha]
      rfl
    · rw [if_neg ha]
      simp only [List.map_cons]
      congr 1
      apply ih
      simp only [List.map_cons, List.mem_cons] at h
      rcases h with heq | hm
      · exact absurd heq.symm ha
      · exact hm

theorem addToTrackerList_absent (accs : List Account) (email status now : String)
    (h : email ∉ accs.map Account.email) :
    (addToTrackerList accs email status now).map Account.email =
      accs.map Account.email ++ [email] := by
  induction accs with
  | nil => rfl
  | cons a rest ih =>
    simp only [addToTrackerList]
    by_cases ha : a.email = email
    · exact absurd (by simp [ha]) h
    · rw [if_neg ha]
      simp only [List.map_cons, List.cons_append]
      congr 1
      apply ih
      intro hm
      exact h (by simpa using Or.inr hm)

theorem addWithPasswordList_present (accs : List Account)
    (email password status now : String) (h : email ∈ accs.map Account.email) :
    (addWithPasswordList accs email password status now).map Account.email =
      accs.map Account.email := by
  induction accs with
  | nil => simp at h
  | cons a rest ih =>
    simp only [addWithPasswordList]
    by_cases ha : a.email = email
    · rw [if_pos ha]
      rfl
    · rw [if_neg ha]
      simp only [List.map_cons]
      congr 1
      apply ih
      simp only [List.map_cons, List.mem_cons] at h
      rcases h with heq | hm
      · exact absurd heq.symm ha
      · exact hm

theorem addWithPasswordList_absent (accs : List Account)
    (email password status now : String) (h : email ∉ accs.map Account.email) :
    (addWithPasswordList accs email password status now).map Account.email =
      accs.map Account.email ++ [email] := by
  induction accs with
  | nil => rfl
  | cons a rest ih =>
    simp only [addWithPasswordList]
    by_cases ha : a.email = email
    · exact absurd (by simp [ha]) h
    · rw [if_neg ha]
      simp only [List.map_cons, List.cons_append]
      congr 1
      apply ih
      intro hm
      exact h (by simpa using Or.inr hm)

theorem updateStatusList_map (accs : List Account) (email status now : String) :
    (updateStatusList accs email status now).map Account.email =
      accs.map Account.email := by
  induction accs with
  | nil => rfl
  | cons a rest ih =>
    simp only [updateStatusList]
    by_cases ha : a.email = email
    · rw [if_pos ha]
      rfl
    · rw [if_neg ha]
      simp only [List.map_cons]
      congr 1

theorem count_eq_getD_length (tr : Tracker) (team : String) :
    get_team_account_count tr team = ((tr team).getD []).length := by
  unfold get_team_account_count
  cases tr team <;> rfl

/-- Counterexample to C4 as stated: in a tracker whose team exists with an
empty account list, the email is absent, yet update_account_status appends
nothing and leaves the count at zero instead of increasing it by one. -/
theorem claim_C4_counterexample :
    ((fun n => if n = "t" then some ([] : List Account) else none) : Tracker) "t"
      = some [] ∧
    get_team_account_count
      (update_account_status
        (fun n => if n = "t" then some ([] : List Account) else none)
        "t" "a@b" "done" "ts") "t" = 0 ∧
    get_team_account_count
      ((fun n => if n = "t" then some ([] : List Account) else none) : Tracker)
      "t" = 0 := by
  refine ⟨rfl, ?_, rfl⟩
  rfl

/-- C4 (amended): on a tracker whose named team has pairwise-distinct
emails, all three operations preserve that distinctness; a present email is
updated in place, leaving the email sequence and the count unchanged; an
absent email makes add_account_to_tracker and add_account_with_password
append exactly one record (count plus one), while update_account_status
leaves the tracker unchanged. -/
theorem claim_C4 (tr : Tracker) (team email status password now : String)
    (hnodup : (((tr team).getD []).map Account.email).Nodup) :
    ((((update_account_status tr team email status now) team).getD []).map
        Account.email = ((tr team).getD []).map Account.email ∧
      get_team_account_count (update_account_status tr team email status now) team
        = get_team_account_count tr team) ∧
    (email ∈ ((tr team).getD []).map Account.email →
      (((add_account_to_tracker tr team email status now) team).getD []).map
          Account.email = ((tr team).getD []).map Account.email ∧
      (((add_account_with_password tr team email password status now) team).getD
          []).map Account.email = ((tr team).getD []).map Account.email ∧
      get_team_account_count (add_account_to_tracker tr team email status now) team
        = get_team_account_count tr team ∧
      get_team_account_count
          (add_account_with_password tr team email password status now) team
        = get_team_account_count tr team) ∧
    (email ∉ ((tr team).getD []).map Account.email →
      (((add_account_to_tracker tr team email status now) team).getD []).map
          Account.email = ((tr team).getD []).map Account.email ++ [email] ∧
      (((add_account_with_password tr team email password status now) team).getD
          []).map Account.email = ((tr team).getD []).map Account.email ++ [email] ∧
      get_team_account_count (add_account_to_tracker tr team email status now) team
        = get_team_account_count tr team + 1 ∧
      get_team_account_count
          (add_account_with_password tr team email password status now) team
        = get_team_account_count tr team + 1) ∧
    ((((add_account_to_tracker tr team email status now) team).getD []).map
      Account.email).Nodup ∧
    ((((add_account_with_password tr team email password status now) team).getD
      []).map Account.email).Nodup ∧
    ((((update_account_status tr team email status now) team).getD []).map
      Account.email).Nodup := by
  have hat : (add_account_to_tracker tr team email status now) team =
      some (addToTrackerList ((tr team).getD []) email status now) := by
    unfold add_account_to_tracker
    rw [if_pos rfl]
  have hap : (add_account_with_password tr team email password status now) team =
      some (addWithPasswordList ((tr team).getD []) email password status now) := by
    unfold add_account_with_password
    rw [if_pos rfl]
  have hus : ((update_account_status tr team email status now) team).getD [] =
      updateStatusList ((tr team).getD []) email status now := by
    unfold update_account_status
    cases htr : tr team with
    | none => simp [htr, updateStatusList]
    | some l => simp [htr]
  have husm : (((update_account_status tr team email status now) team).getD
      []).map Account.email = ((tr team).getD []).map Account.email := by
    rw [hus, updateStatusList_map]
  refine ⟨⟨husm, ?_⟩, ?_, ?_, ?_, ?_, ?_⟩
  · rw [count_eq_getD_length, count_eq_getD_length, ← List.length_map _ Account.email,
      ← List.length_map _ Account.email, husm]
  · intro hmem
    have h1 := addToTrackerList_present ((tr team).getD []) email status now hmem
    have h2 := addWithPasswordList_present ((tr team).getD []) email password status
      now hmem
    refine ⟨by rw [hat]; simpa using h1, by rw [hap]; simpa using h2, ?_, ?_⟩
    · rw [count_eq_getD_length, count_eq_getD_length, hat,
        ← List.length_map _ Account.email, ← List.length_map _ Account.email]
      simp only [Option.getD_some]
      rw [h1]
    · rw [count_eq_getD_length, count_eq_getD_length, hap,
        ← List.length_map _ Account.email, ← List.length_map _ Account.email]
      simp only [Option.getD_some]
      rw [h2]
  · intro hmem
    have h1 := addToTrackerList_absent ((tr team).getD []) email status now hmem
    have h2 := addWithPasswordList_absent ((tr team).getD []) email password status
      now hmem
    refine ⟨by rw [hat]; simpa using h1, by rw [hap]; simpa using h2, ?_, ?_⟩
    · rw [count_eq_getD_length, count_eq_getD_length, hat,
        ← List.length_map _ Account.email, ← List.length_map _ Account.email]
      simp only [Option.getD_some]
      rw [h1]
      simp
    · rw [count_eq_getD_length, count_eq_getD_length, hap,
        ← List.length_map _ Account.email, ← List.length_map _ Account.email]
      simp only [Option.getD_some]
      rw [h2]
      simp
  · by_cases hmem : email ∈ ((tr team).getD []).map Account.email
    · rw [hat]
      simp only [Option.getD_some]
      rw [addToTrackerList_present _ _ _ _ hmem]
      exact hnodup
    · rw [hat]
      simp only [Option.getD_some]
      rw [addToTrackerList_absent _ _ _ _ hmem]
      simp [List.nodup_append, hnodup, hmem]
  · by_cases hmem : email ∈ ((tr team).getD []).map Account.email
    · rw [hap]
      simp only [Option.getD_some]
      rw [addWithPasswordList_present _ _ _ _ _ hmem]
      exact hnodup
    · rw [hap]
      simp only [Option.getD_some]
      rw [addWithPasswordList_absent _ _ _ _ _ hmem]
      simp [List.nodup_append, hnodup, hmem]
  · rw [husm]
    exact hnodup

/-- Witness for the amended C4: updating a present email keeps the email
list and the count, on a concrete one-account tracker. -/
theorem claim_C4_witness :
    (((add_account_to_tracker
        (fun n => if n = "t" then some
          [{ email := "x@y", status := "invited", password := none,
             createdAt := "c", updatedAt := "u" }] else none)
        "t" "x@y" "registered" "now") "t").getD []).map Account.email =
      ["x@y"] ∧
    get_team_account_count
      (add_account_to_tracker
        (fun n => if n = "t" then some
          [{ email := "x@y", status := "invited", password := none,
             createdAt := "c", updatedAt := "u" }] else none)
        "t" "x@y" "registered" "now") "t" = 1 := by
  have h := (claim_C4
    (fun n => if n = "t" then some
      [{ email := "x@y", status := "invited", password := none,
         createdAt := "c", updatedAt := "u" }] else none)
    "t" "x@y" "registered" "pw" "now" (by decide)).2.1 (by decide)
  exact ⟨by rw [h.1]; rfl, by rw [h.2.2.1]; rfl⟩


theorem unquotePlus_ne_nil : ∀ (v : List Char), v ≠ [] → unquotePlus v ≠ [] := by
  intro v h
  cases v with
  | nil => exact absurd rfl h
  | cons c rest =>
    rw [unquotePlus.eq_def]
    simp only []
    by_cases h1 : c = '+'
    · simp [h1]
    · rw [if_neg h1]
      by_cases h2 : c = '%'
      · rw [if_pos h2]
        cases rest with
        | nil => simp
        | cons a rest1 =>
          cases rest1 with
          | nil => simp
          | cons b rest2 =>
            cases ha : hexVal a <;> cases hb2 : hexVal b <;> simp [ha, hb2]
      · rw [if_neg h2]
        simp

theorem qslField_of_rawField_none (fl : List Char) (h : rawField fl = none) :
    qslField fl = none := by
  unfold rawField at h
  by_cases hfe : fl.isEmpty = true
  · unfold qslField
    rw [if_pos hfe]
  · rw [if_neg hfe] at h
    cases hs : (splitFirst '=' fl).2 with
    | none => rw [hs] at h; exact absurd h (by simp)
    | some v => rw [hs] at h; exact absurd h (by simp)

theorem qslField_of_rawField_some (fl : List Char) (p : List Char × List Char)
    (h : rawField fl = some p) :
    qslField fl = if !p.2.isEmpty then some p else none := by
  unfold rawField at h
  unfold qslField
  by_cases hfe : fl.isEmpty = true
  · rw [if_pos hfe] at h
    exact absurd h (by simp)
  · rw [if_neg hfe] at h ⊢
    cases hs : (splitFirst '=' fl).2 with
    | none =>
      rw [hs] at h
      injection h with h3
      subst h3
      rfl
    | some v =>
      rw [hs] at h
      injection h with h3
      subst h3
      by_cases hv : v.isEmpty = true
      · have hvnil : v = [] := List.isEmpty_iff.mp hv
        subst hvnil
        rfl
      · have huq : unquotePlus v ≠ [] :=
          unquotePlus_ne_nil v (fun hc => hv (by simp [hc]))
        have hb : (!(unquotePlus v).isEmpty) = true := by simpa using huq
        simp only [if_neg hv, hb, if_true]

theorem parse_qsl_eq_rawQsl (qs : List Char) :
    parse_qsl qs = (rawQsl qs).filter (fun p => !p.2.isEmpty) := by
  unfold parse_qsl rawQsl
  generalize splitAll '&' qs = fields
  induction fields with
  | nil => rfl
  | cons fl rest ih =>
    cases hrf : rawField fl with
    | none =>
      rw [List.filterMap_cons_none (qslField_of_rawField_none fl hrf),
        List.filterMap_cons_none hrf]
      exact ih
    | some p =>
      have hq := qslField_of_rawField_some fl p hrf
      by_cases hp : (!p.2.isEmpty) = true
      · rw [if_pos hp] at hq
        rw [List.filterMap_cons_some hq, List.filterMap_cons_some hrf,
          @List.filter_cons_of_pos _ (fun p => !p.2.isEmpty) p
            (List.filterMap rawField rest) hp, ih]
      · rw [if_neg hp] at hq
        rw [List.filterMap_cons_none hq, List.filterMap_cons_some hrf,
          @List.filter_cons_of_neg _ (fun p => !p.2.isEmpty) p
            (List.filterMap rawField rest) hp]
        exact ih

theorem qsInsert_values (d : List (List Char × List (List Char)))
    (kn v q : List Char) :
    qsValues (qsInsert d kn v) q =
      qsValues d q ++ (if kn = q then [v] else []) := by
  induction d with
  | nil =>
    simp only [qsInsert, qsValues, List.find?]
    by_cases h : kn = q
    · subst h
      simp
    · have hb : (kn == q) = false := by simpa using h
      simp [hb, h]
  | cons e rest ih =>
    obtain ⟨n, vs⟩ := e
    simp only [qsInsert]
    by_cases h1 : n = kn
    · rw [if_pos h1]
      by_cases h2 : n = q
      · have hb : (n == q) = true := by simpa using h2
        simp only [qsValues, List.find?_cons, hb]
        subst h1
        rw [if_pos h2]
        simp
      · have hb : (n == q) = false := by simpa using h2
        simp only [qsValues, List.find?_cons, hb]
        subst h1
        rw [if_neg h2]
        simp [qsValues]
    · rw [if_neg h1]
      by_cases h2 : n = q
      · have hb : (n == q) = true := by simpa using h2
        simp only [qsValues, List.find?_cons, hb]
        have hknq : kn ≠ q := fun hc => h1 (h2.trans hc.symm)
        rw [if_neg hknq]
        simp
      · have hb : (n == q) = false := by simpa using h2
        simp only [qsValues, List.find?_cons, hb]
        exact ih

theorem foldl_qsInsert_values (l : List (List Char × List Char)) :
    ∀ (d : List (List Char × List (List Char))) (q : List Char),
      qsValues (l.foldl (fun d p => qsInsert d p.1 p.2) d) q =
        qsValues d q ++ (l.filter (fun p => p.1 == q)).map Prod.snd := by
  induction l with
  | nil => intro d q; simp
  | cons e rest ih =>
    intro d q
    simp only [List.foldl_cons]
    rw [ih]
    rw [qsInsert_values]
    by_cases h : e.1 = q
    · have hb : ((fun p => p.1 == q) e) = true := by simpa using h
      rw [@List.filter_cons_of_pos _ (fun p => p.1 == q) e rest hb, if_pos h]
      simp
    · have hb : ¬ ((fun p => p.1 == q) e) = true := by simpa using h
      rw [@List.filter_cons_of_neg _ (fun p => p.1 == q) e rest hb, if_neg h]
      simp

theorem extract_code_head (url : String) (hu : url.isEmpty ≠ true) :
    extract_code_from_url url =
      (qsValues (parse_qs (queryOf url.toList)) "code".toList).head?.map
        String.mk := by
  unfold extract_code_from_url qsValues
  rw [if_neg hu]
  cases (parse_qs (queryOf url.toList)).find? (fun p => p.1 == "code".toList) with
  | none => rfl
  | some p => rfl

/-- C8 (amended): extract_code_from_url returns the decoded value of the
first code field of the query string whose raw value is non-empty, and
returns none when the URL is empty, has no query string, or has no code
field with a non-empty value; it never raises. -/
theorem claim_C8 (url : String) :
    extract_code_from_url url =
      (((rawQsl (queryOf url.toList)).filter
        (fun p => p.1 == "code".toList && !p.2.isEmpty)).head?).map
        (fun p => String.mk p.2) ∧
    extract_code_from_url "" = none ∧
    (queryOf url.toList = [] → extract_code_from_url url = none) := by
  have main : ∀ u : String, extract_code_from_url u =
      (((rawQsl (queryOf u.toList)).filter
        (fun p => p.1 == "code".toList && !p.2.isEmpty)).head?).map
        (fun p => String.mk p.2) := by
    intro u
    by_cases hu : u.isEmpty = true
    · have h0 : u = "" := (String.isEmpty_iff u).mp hu
      subst h0
      rfl
    · rw [extract_code_head u hu]
      unfold parse_qs
      rw [foldl_qsInsert_values]
      rw [parse_qsl_eq_rawQsl]
      rw [List.filter_filter]
      have hnilv : qsValues [] "code".toList = [] := rfl
      rw [hnilv]
      rw [List.nil_append]
      rw [List.head?_map, Option.map_map]
      rfl
  refine ⟨main url, rfl, ?_⟩
  intro hq
  rw [main url, hq]
  rfl

/-- Counterexample to C8 as stated: the query string code= does contain a
code parameter (whose first and only value is the empty string), yet
extract_code_from_url returns none rather than that first value, because
parse_qs drops blank values. -/
theorem claim_C8_counterexample :
    rawQsl (queryOf "https://ex.com/cb?code=".toList) = [("code".toList, [])] ∧
    extract_code_from_url "https://ex.com/cb?code=" = none := by
  constructor
  · decide
  · decide

/-- Witness for the amended C8: a URL without a question mark has the
empty query string and yields none. -/
theorem claim_C8_witness :
    extract_code_from_url "https://chatgpt.com/home" = none :=
  (claim_C8 "https://chatgpt.com/home").2.2 (by decide)
